import Mathlib

/-
Shallow embedding of the Disting NT wireframe-rendering plugins:
  * the five-Eulerian-solids variant (polywire_plugin_eulerian5_nocull.cpp), and
  * the cube variant (plugins/sequencer_v1/noculling.cpp).
Machine floats are idealised as exact rationals; the cached sine/cosine values,
the geometry vertex tables (which hold irrational normalised coordinates) and
the sine waveform of the amplitude modulator are kept as abstract parameters,
since no verified property depends on their numeric values.
-/

namespace PolyWire

/- ===== Geometry tables (five-solid variant, part_002) ===== -/

/-- Source table `numVertsArr`: vertex counts of the five solids. -/
def numVertsArr : ℕ → ℕ := fun k => [6, 12, 14, 20, 24].getD k 0

/-- Source table `vertOffset`: vertex-table offsets of the five solids. -/
def vertOffset : ℕ → ℕ := fun k => [0, 6, 18, 32, 52].getD k 0

/-- Source table `numEdgesArr`: edge counts of the five solids. -/
def numEdgesArr : ℕ → ℕ := fun k => [12, 24, 24, 30, 36].getD k 0

/-- Source table `edgeOffsetAll`. -/
def edgeOffsetAll : ℕ → ℕ := fun k => [0, 12, 36, 60, 90].getD k 0

/-- Source table `eulerOffsetAll`. -/
def eulerOffsetAll : ℕ → ℕ := fun k => [0, 12, 36, 60, 90].getD k 0

/-- Source table `eulerLengthAll`. -/
def eulerLengthAll : ℕ → ℕ := fun k => [12, 24, 24, 30, 36].getD k 0

/-- Source traversal-order table `eulerOcta`. -/
def eulerOcta : List ℕ := [0, 1, 2, 3, 4, 5, 6, 7, 8, 9, 10, 11]

/-- Source traversal-order table `eulerCubo`. -/
def eulerCubo : List ℕ :=
  [0, 1, 2, 3, 4, 5, 6, 7, 8, 9, 10, 11,
   12, 13, 14, 15, 16, 17, 18, 19, 20, 21, 22, 23]

/-- Source traversal-order table `eulerRhdDodec`. -/
def eulerRhdDodec : List ℕ :=
  [0, 1, 2, 3, 4, 5, 6, 7, 8, 9, 10, 11,
   12, 13, 14, 15, 16, 17, 18, 19, 20, 21, 22, 23]

/-- Source traversal-order table `eulerRhdIcosa`. -/
def eulerRhdIcosa : List ℕ :=
  [0, 1, 2, 3, 4, 5, 6, 7, 8, 9,
   10, 11, 12, 13, 14, 15, 16, 17, 18, 19,
   20, 21, 22, 23, 24, 25, 26, 27, 28, 29]

/-- Source traversal-order table `eulerTruncOcta`. -/
def eulerTruncOcta : List ℕ :=
  [0, 1, 2, 3, 4, 5, 6, 7, 8, 9, 10, 11,
   12, 13, 14, 15, 16, 17, 18, 19, 20, 21, 22, 23,
   24, 25, 26, 27, 28, 29, 30, 31, 32, 33, 34, 35]

/-- The permutation invariant on a traversal order of length `L`: every edge id
`0..L-1` appears exactly once. -/
def isPermOrder (o : List ℕ) : Prop := ∀ e, e < o.length → o.count e = 1

instance (o : List ℕ) : Decidable (isPermOrder o) := by
  unfold isPermOrder; infer_instance

/-- The traversal-order portion of `initialise`: five successive `memcpy`s into
`sharedEulerOrder` at offsets 0, 12, 36, 60, 90 — exactly the cumulative
lengths, so the copy is plain concatenation.  The routine performs no
validation on the tables it copies. -/
def initialiseEulerOrder (t0 t1 t2 t3 t4 : List ℕ) : List ℕ :=
  t0 ++ t1 ++ t2 ++ t3 ++ t4

/- ===== Cube variant geometry (noculling.cpp) ===== -/

/-- Source struct `Segment` of the cube variant: endpoint vertex indices and a draw flag. -/
structure Segment where
  a : ℕ
  b : ℕ
  draw : ℕ
  deriving DecidableEq

/-- Source table `cubeSegments` of the cube variant. -/
def cubeSegments : List Segment :=
  [⟨0, 1, 1⟩, ⟨1, 2, 1⟩, ⟨2, 3, 1⟩, ⟨3, 0, 1⟩,
   ⟨0, 4, 1⟩, ⟨4, 5, 1⟩, ⟨5, 6, 1⟩, ⟨6, 7, 1⟩, ⟨7, 4, 1⟩,
   ⟨4, 1, 0⟩, ⟨1, 5, 1⟩, ⟨5, 2, 0⟩, ⟨2, 6, 1⟩, ⟨6, 3, 0⟩,
   ⟨3, 7, 1⟩, ⟨7, 0, 0⟩]

/-- Source constant `numSegments` of the cube variant (= 16). -/
def numSegments : ℕ := cubeSegments.length

/- ===== Phase clock (both variants) ===== -/

/-- One per-sample phase update of `step`:
`phase += freq / fs; if (phase >= 1.0f) phase -= 1.0f;`. -/
def stepPhase (p d : ℚ) : ℚ :=
  let q := p + d
  if q ≥ 1 then q - 1 else q

/-- The phase after `n` loop iterations of `step`. -/
def phaseIter (d : ℚ) : ℕ → ℚ → ℚ
  | 0, p => p
  | n + 1, p => phaseIter d n (stepPhase p d)

/-- The amplitude-modulator phase update of the cube `step`:
`ampPhase += ampFreq / fs; if (ampPhase >= 1.0f) ampPhase -= floorf(ampPhase);`. -/
def cubeAmpPhaseStep (p d : ℚ) : ℚ :=
  let q := p + d
  if q ≥ 1 then q - ⌊q⌋ else q

/-- The amplitude-modulator phase after `n` loop iterations. -/
def ampPhaseIter (d : ℚ) : ℕ → ℚ → ℚ
  | 0, p => p
  | n + 1, p => ampPhaseIter d n (cubeAmpPhaseStep p d)

/- ===== Edge resolver (both variants) ===== -/

/-- The edge resolver of `step`:
`ePos = phase * eLen; idx = floor(ePos); if (idx >= eLen) idx = eLen - 1;
frac = ePos - idx;`.  Returns `(idx, frac)`. -/
def edgeResolve (phase : ℚ) (eLen : ℕ) : ℤ × ℚ :=
  let ePos := phase * (eLen : ℚ)
  let idx0 := ⌊ePos⌋
  let idx := if (eLen : ℤ) ≤ idx0 then (eLen : ℤ) - 1 else idx0
  (idx, ePos - (idx : ℚ))

/- ===== Blanking controller (both variants) ===== -/

/-- The shared blank-fraction computation of both `step` variants:
`blankFrac = bw * 1e-6f * ref * eLen; if (blankFrac > 0.5f) blankFrac = 0.5f;`. -/
def blankFracFormula (bw ref L : ℚ) : ℚ :=
  let b := bw * (1 / 1000000) * ref * L
  if b > 1 / 2 then 1 / 2 else b

/-- The shared shift-fraction computation of both `step` variants:
`shiftFrac = bp * 1e-6f * ref * eLen;` (no clamp). -/
def shiftFracFormula (bp ref L : ℚ) : ℚ := bp * (1 / 1000000) * ref * L

/-- The shifted-fraction computation of `step`:
`fShift = frac + shiftFrac; if (fShift < 0) fShift += 1; if (fShift >= 1) fShift -= 1;`. -/
def fShiftOf (frac shiftFrac : ℚ) : ℚ :=
  let f0 := frac + shiftFrac
  let f1 := if f0 < 0 then f0 + 1 else f0
  if f1 ≥ 1 then f1 - 1 else f1

/-- Modelled from the spec: `wrap01(x) = x - floor(x)`, the full wrap the spec
ascribes to the shifted fraction.  Used only to compare against `fShiftOf`. -/
def wrap01 (x : ℚ) : ℚ := x - (⌊x⌋ : ℚ)

/- ===== Transform pipeline (both variants) ===== -/

/-- The Distance case of `parameterChanged`:
`d = raw * 0.01f; if (d < 0.111f) d = 0.111f;`. -/
def distanceFromRaw (raw : ℤ) : ℚ :=
  let d := (raw : ℚ) * (1 / 100)
  if d < 111 / 1000 then 111 / 1000 else d

/-- The guarded perspective divisor of the normal-polarity branch of `step`:
`dcam = Zr + cameraDist; if (dcam == 0.0f) dcam = 0.0001f;`. -/
def perspDivisorNormal (Zr cameraDist : ℚ) : ℚ :=
  let dcam := Zr + cameraDist
  if dcam = 0 then 1 / 10000 else dcam

/-- The X→Y→Z rotation of `step`, from the cached sine/cosine pairs. -/
def rotatePoint (sX cX sY cY sZ cZ : ℚ) (P : ℚ × ℚ × ℚ) : ℚ × ℚ × ℚ :=
  let Y1 := cX * P.2.1 - sX * P.2.2
  let Z1 := sX * P.2.1 + cX * P.2.2
  let X1 := P.1
  let X2 := cY * X1 + sY * Z1
  let Z2 := -sY * X1 + cY * Z1
  let Y2 := Y1
  let Xr := cZ * X2 - sZ * Y2
  let Yr := sZ * X2 + cZ * Y2
  (Xr, Yr, Z2)

/-- The projection block of `step` (both variants): orthographic, or
perspective with normal or inverted polarity. -/
def project (projectionMode polarity : ℤ) (cameraDist Xr Yr Zr : ℚ) : ℚ × ℚ :=
  if projectionMode = 1 then
    if polarity = 0 then
      let dcam := perspDivisorNormal Zr cameraDist
      let scale := cameraDist / dcam
      (5 * (Xr * scale), 5 * (Yr * scale))
    else
      let dcam := Zr + cameraDist
      let scale := dcam / cameraDist
      (5 * (Xr * scale), 5 * (Yr * scale))
  else
    (5 * Xr, 5 * Yr)

/- ===== Per-instance state ===== -/

/-- Instance state `PolyInstance` of the five-solid variant (part_002). -/
structure PolyInstance where
  phase : ℚ
  sinX : ℚ
  cosX : ℚ
  sinY : ℚ
  cosY : ℚ
  sinZ : ℚ
  cosZ : ℚ
  freq_Hz : ℚ
  cameraDist : ℚ
  projectionMode : ℤ
  polarity : ℤ
  xOutBus : ℕ
  yOutBus : ℕ
  iOutBus : ℕ
  solidParam : ℤ
  blankWindow_us : ℚ
  blankPhase_us : ℚ

/-- The `PolyInstance()` constructor defaults of the five-solid variant. -/
def polyInstanceInit : PolyInstance :=
  { phase := 0
    sinX := 0, cosX := 1, sinY := 0, cosY := 1, sinZ := 0, cosZ := 1
    freq_Hz := 50
    cameraDist := 1
    projectionMode := 1
    polarity := 0
    xOutBus := 12, yOutBus := 13, iOutBus := 14
    solidParam := 0
    blankWindow_us := 10
    blankPhase_us := 0 }

/-- Instance state of the cube variant (named `PolyInstance` in noculling.cpp). -/
structure CubeInstance where
  phase : ℚ
  sinX : ℚ
  cosX : ℚ
  sinY : ℚ
  cosY : ℚ
  sinZ : ℚ
  cosZ : ℚ
  freq_Hz : ℚ
  cameraDist : ℚ
  projectionMode : ℤ
  polarity : ℤ
  xOutBus : ℕ
  yOutBus : ℕ
  iOutBus : ℕ
  ampModAmt : ℚ
  ampCorseIdx : ℤ
  ampFine : ℤ
  ampWave : ℤ
  ampPhaseOffset : ℚ
  ampPhase : ℚ
  blankWindow_us : ℚ
  blankPhase_us : ℚ
  resolution : ℤ

/-- The `PolyInstance()` constructor defaults of the cube variant. -/
def cubeInstanceInit : CubeInstance :=
  { phase := 0
    sinX := 0, cosX := 1, sinY := 0, cosY := 1, sinZ := 0, cosZ := 1
    freq_Hz := 50
    cameraDist := 5
    projectionMode := 1
    polarity := 0
    xOutBus := 12, yOutBus := 13, iOutBus := 14
    ampModAmt := 0
    ampCorseIdx := 4
    ampFine := 0
    ampWave := 4
    ampPhaseOffset := 0
    ampPhase := 0
    blankWindow_us := 10
    blankPhase_us := 0
    resolution := 0 }

/-- The shared geometry tables written by `initialise` of the five-solid
variant.  The vertex coordinates are abstract (their normalised values are
irrational); the edge and traversal tables map flat indices to their entries. -/
structure SharedGeom where
  verts : ℕ → ℚ × ℚ × ℚ
  edges : ℕ → ℕ × ℕ
  euler : ℕ → ℕ

/- ===== Five-solid step ===== -/

/-- The solid selection of `step`:
`sParam = solidParam / 100; if (sParam > 4) sParam = 4;` (C division truncates
toward zero). -/
def solidIdxOf (solidParam : ℤ) : ℤ :=
  let s := Int.tdiv solidParam 100
  if s > 4 then 4 else s

/-- Value `blankFrac` as computed by the five-solid `step` from its instance: the
reference frequency is the live `freq_Hz`. -/
def polyBlankFracOf (inst : PolyInstance) : ℚ :=
  blankFracFormula inst.blankWindow_us inst.freq_Hz
    (numEdgesArr (solidIdxOf inst.solidParam).toNat : ℚ)

/-- Value `shiftFrac` as computed by the five-solid `step`. -/
def polyShiftFracOf (inst : PolyInstance) : ℚ :=
  shiftFracFormula inst.blankPhase_us inst.freq_Hz
    (numEdgesArr (solidIdxOf inst.solidParam).toNat : ℚ)

/-- The intensity decision of the five-solid `step`:
`Iout = 5.0f; if ((fShift < blankFrac) || (fShift > 1.0f - blankFrac)) Iout = 0.0f;`. -/
def polyIntensity (fShift blankFrac : ℚ) : ℚ :=
  if fShift < blankFrac ∨ fShift > 1 - blankFrac then 0 else 5

/-- One loop-body evaluation of the five-solid `step` at an (already updated)
phase value: returns the `(Xv, Yv, Iout)` triple written to the three buses. -/
def polySample (g : SharedGeom) (inst : PolyInstance) (phase : ℚ) : ℚ × ℚ × ℚ :=
  let sParam := (solidIdxOf inst.solidParam).toNat
  let vOff := vertOffset sParam
  let eOff := edgeOffsetAll sParam
  let eLen := numEdgesArr sParam
  let euOff := eulerOffsetAll sParam
  let blankFrac := polyBlankFracOf inst
  let shiftFrac := polyShiftFracOf inst
  let r := edgeResolve phase eLen
  let frac := r.2
  let fShift := fShiftOf frac shiftFrac
  let edgeID := g.euler (euOff + r.1.toNat)
  let e := g.edges (eOff + edgeID)
  let A := g.verts (vOff + e.1)
  let B := g.verts (vOff + e.2)
  let P : ℚ × ℚ × ℚ :=
    ((1 - frac) * A.1 + frac * B.1,
     (1 - frac) * A.2.1 + frac * B.2.1,
     (1 - frac) * A.2.2 + frac * B.2.2)
  let R := rotatePoint inst.sinX inst.cosX inst.sinY inst.cosY inst.sinZ inst.cosZ P
  let XY := project inst.projectionMode inst.polarity inst.cameraDist R.1 R.2.1 R.2.2
  (XY.1, XY.2, polyIntensity fShift blankFrac)

/-- The five-solid `step`: advances the phase once per frame, writes the three
output-bus regions (X at `xOutBus`, Y at `yOutBus`, intensity at `iOutBus`,
`numFrames = numFramesBy4 * 4` contiguous floats each, later writes winning on
bus collisions exactly as in the source write order X, Y, I), and stores the
final phase back into the instance. -/
def polyStep (g : SharedGeom) (inst : PolyInstance) (busFrames : ℕ → ℚ)
    (numFramesBy4 : ℕ) (fs : ℚ) : PolyInstance × (ℕ → ℚ) :=
  let numFrames := numFramesBy4 * 4
  let d := inst.freq_Hz / fs
  let sample := fun i => polySample g inst (phaseIter d (i + 1) inst.phase)
  let newBus := fun j =>
    if numFrames = 0 then busFrames j
    else
      let b := j / numFrames
      let i := j % numFrames
      if b = inst.iOutBus then (sample i).2.2
      else if b = inst.yOutBus then (sample i).2.1
      else if b = inst.xOutBus then (sample i).1
      else busFrames j
  ({ inst with phase := phaseIter d numFrames inst.phase }, newBus)

/- ===== Cube step ===== -/

/-- Function `getCourseFactor` from the cube source. -/
def getCourseFactor (idx : ℤ) : ℚ :=
  if idx = 0 then 1 / 4
  else if idx = 1 then 1 / 3
  else if idx = 2 then 1 / 2
  else if idx = 3 then 1
  else ((idx - 2 : ℤ) : ℚ)

/-- Function `oscWave` from the cube source; the sine waveform is abstracted by the
supplied `sinq` function (the source calls `sinf(2 * 3.14159265f * phase)`). -/
def oscWave (sinq : ℚ → ℚ) (type : ℤ) (phase : ℚ) : ℚ :=
  let p := phase - (⌊phase⌋ : ℚ)
  if type = 0 then (if p < 1 / 2 then 1 else -1)
  else if type = 1 then (if p < 1 / 2 then 4 * p - 1 else 3 - 4 * p)
  else if type = 2 then 1 - 2 * p
  else if type = 3 then 2 * p - 1
  else sinq (2 * (314159265 / 100000000) * p)

/-- C `roundf`: rounds half away from zero. -/
def croundf (x : ℚ) : ℤ :=
  if 0 ≤ x then ⌊x + 1 / 2⌋ else -⌊-x + 1 / 2⌋

/-- The quantisation block of the cube `step`, applied per coordinate when
`resolution > 0`. -/
def quantizeCoord (resolution : ℤ) (v : ℚ) : ℚ :=
  let scaleQ := (resolution : ℚ) * (1 / 2)
  ((croundf ((v + 1) * scaleQ) : ℚ)) / scaleQ - 1

/-- Value `blankFrac` as computed by the cube `step`: the reference frequency is the
fixed constant `freqRef = 50.0f`, not the live frequency. -/
def cubeBlankFracOf (inst : CubeInstance) : ℚ :=
  blankFracFormula inst.blankWindow_us 50 (numSegments : ℚ)

/-- Value `shiftFrac` as computed by the cube `step` (fixed 50 Hz reference). -/
def cubeShiftFracOf (inst : CubeInstance) : ℚ :=
  shiftFracFormula inst.blankPhase_us 50 (numSegments : ℚ)

/-- The amplitude-modulator frequency of the cube `step`:
`ampFreq = freq * courseFac + ampFine * 0.1f; if (ampFreq < 0) ampFreq = 0;`. -/
def cubeAmpFreqOf (inst : CubeInstance) : ℚ :=
  let base := inst.freq_Hz * getCourseFactor inst.ampCorseIdx
  let f := base + (inst.ampFine : ℚ) * (1 / 10)
  if f < 0 then 0 else f

/-- The intensity decision of the cube `step`:
`Iout = (seg.draw ? 5.0f : 0.0f); if (seg.draw && (test)) Iout = 0.0f;`. -/
def cubeIntensity (draw : ℕ) (fShift blankFrac : ℚ) : ℚ :=
  let base : ℚ := if draw ≠ 0 then 5 else 0
  if draw ≠ 0 ∧ (fShift < blankFrac ∨ fShift > 1 - blankFrac) then 0 else base

/-- One loop-body evaluation of the cube `step` at (already updated) path phase
and amp phase: returns the `(outX, outY, Iout)` triple written to the buses. -/
def cubeSample (cv : ℕ → ℚ × ℚ × ℚ) (sinq : ℚ → ℚ) (inst : CubeInstance)
    (phase ampPhase : ℚ) : ℚ × ℚ × ℚ :=
  let eLen := numSegments
  let blankFrac := cubeBlankFracOf inst
  let shiftFrac := cubeShiftFracOf inst
  let ampVal := oscWave sinq inst.ampWave (ampPhase + inst.ampPhaseOffset)
  let ampMul := 1 + inst.ampModAmt * ampVal
  let r := edgeResolve phase eLen
  let frac := r.2
  let fShift := fShiftOf frac shiftFrac
  let seg := cubeSegments.getD r.1.toNat ⟨0, 0, 0⟩
  let A := cv seg.a
  let B := cv seg.b
  let P : ℚ × ℚ × ℚ :=
    ((1 - frac) * A.1 + frac * B.1,
     (1 - frac) * A.2.1 + frac * B.2.1,
     (1 - frac) * A.2.2 + frac * B.2.2)
  let R := rotatePoint inst.sinX inst.cosX inst.sinY inst.cosY inst.sinZ inst.cosZ P
  let Rq : ℚ × ℚ × ℚ :=
    if inst.resolution > 0 then
      (quantizeCoord inst.resolution R.1,
       quantizeCoord inst.resolution R.2.1,
       quantizeCoord inst.resolution R.2.2)
    else R
  let XY := project inst.projectionMode inst.polarity inst.cameraDist Rq.1 Rq.2.1 Rq.2.2
  (XY.1 * ampMul, XY.2 * ampMul, cubeIntensity seg.draw fShift blankFrac)

/-- The cube `step`: advances path phase and amp phase once per frame, writes
the three output-bus regions, and stores both final phases back into the
instance. -/
def cubeStep (cv : ℕ → ℚ × ℚ × ℚ) (sinq : ℚ → ℚ) (inst : CubeInstance)
    (busFrames : ℕ → ℚ) (numFramesBy4 : ℕ) (fs : ℚ) : CubeInstance × (ℕ → ℚ) :=
  let numFrames := numFramesBy4 * 4
  let d := inst.freq_Hz / fs
  let dAmp := cubeAmpFreqOf inst / fs
  let sample := fun i =>
    cubeSample cv sinq inst (phaseIter d (i + 1) inst.phase)
      (ampPhaseIter dAmp (i + 1) inst.ampPhase)
  let newBus := fun j =>
    if numFrames = 0 then busFrames j
    else
      let b := j / numFrames
      let i := j % numFrames
      if b = inst.iOutBus then (sample i).2.2
      else if b = inst.yOutBus then (sample i).2.1
      else if b = inst.xOutBus then (sample i).1
      else busFrames j
  ({ inst with
      phase := phaseIter d numFrames inst.phase
      ampPhase := ampPhaseIter dAmp numFrames inst.ampPhase }, newBus)

/-- Membership of a flat bus-frame index in the contiguous region of one bus. -/
def inBusRegion (bus numFrames j : ℕ) : Prop :=
  bus * numFrames ≤ j ∧ j < bus * numFrames + numFrames

instance (bus numFrames j : ℕ) : Decidable (inBusRegion bus numFrames j) := by
  unfold inBusRegion; infer_instance

/- ===== Concrete inputs used by witnesses ===== -/

/-- A trivial geometry store used to instantiate universally quantified
geometry parameters in witnesses. -/
def zeroGeom : SharedGeom :=
  { verts := fun _ => (0, 0, 0), edges := fun _ => (0, 0), euler := fun _ => 0 }

/-- A zero-filled bus-frame buffer used in witnesses. -/
def zeroBus : ℕ → ℚ := fun _ => 0

/-- A trivial cube vertex table used in witnesses. -/
def zeroVerts : ℕ → ℚ × ℚ × ℚ := fun _ => (0, 0, 0)

/-- A stand-in for the abstract sine function in witnesses. -/
def idSin : ℚ → ℚ := fun x => x

/- ===== Helper lemmas ===== -/

theorem stepPhase_mem (p d : ℚ) (hp0 : 0 ≤ p) (hp1 : p < 1)
    (hd0 : 0 ≤ d) (hd1 : d < 1) :
    0 ≤ stepPhase p d ∧ stepPhase p d < 1 := by
  by_cases h : p + d ≥ 1
  · simp only [stepPhase, if_pos h]
    constructor <;> linarith
  · simp only [stepPhase, if_neg h]
    constructor <;> linarith

theorem phaseIter_mem (d : ℚ) (hd0 : 0 ≤ d) (hd1 : d < 1) :
    ∀ n p, 0 ≤ p → p < 1 → 0 ≤ phaseIter d n p ∧ phaseIter d n p < 1
  | 0, _, h0, h1 => ⟨h0, h1⟩
  | n + 1, p, h0, h1 => by
    have h := stepPhase_mem p d h0 h1 hd0 hd1
    exact phaseIter_mem d hd0 hd1 n _ h.1 h.2

/- ===== C1 ===== -/

/-- C1: for every traversal length `L ≥ 1` and phase in `[0,1)`, the edge
resolver of `step` returns edge index `⌊phase·L⌋` (the clamp to `L-1` never
fires), which lies in `[0, L)`, and fraction `phase·L - ⌊phase·L⌋`, which lies
in `[0, 1)`; phase 0 yields index 0, fraction 0. -/
theorem C1_edge_resolver (L : ℕ) (phase : ℚ) (hL : 1 ≤ L)
    (h0 : 0 ≤ phase) (h1 : phase < 1) :
    (edgeResolve phase L).1 = ⌊phase * (L : ℚ)⌋ ∧
    0 ≤ (edgeResolve phase L).1 ∧ (edgeResolve phase L).1 < (L : ℤ) ∧
    (edgeResolve phase L).2 = phase * (L : ℚ) - (⌊phase * (L : ℚ)⌋ : ℚ) ∧
    0 ≤ (edgeResolve phase L).2 ∧ (edgeResolve phase L).2 < 1 ∧
    (edgeResolve 0 L).1 = 0 ∧ (edgeResolve 0 L).2 = 0 := by
  have hLq : (0 : ℚ) < (L : ℚ) := by exact_mod_cast hL
  have hlt : phase * (L : ℚ) < (L : ℚ) := by nlinarith
  have hnn : 0 ≤ phase * (L : ℚ) := mul_nonneg h0 (le_of_lt hLq)
  have hfl : ⌊phase * (L : ℚ)⌋ < (L : ℤ) := by
    rw [Int.floor_lt]
    exact_mod_cast hlt
  have hfn : 0 ≤ ⌊phase * (L : ℚ)⌋ := Int.floor_nonneg.2 hnn
  have hcond : ¬ ((L : ℤ) ≤ ⌊phase * (L : ℚ)⌋) := not_le.2 hfl
  have hres : edgeResolve phase L
      = (⌊phase * (L : ℚ)⌋, phase * (L : ℚ) - (⌊phase * (L : ℚ)⌋ : ℚ)) := by
    simp only [edgeResolve, if_neg hcond]
  have hzcond : ¬ ((L : ℤ) ≤ 0) := by omega
  have hzres : edgeResolve 0 L = (0, 0) := by
    simp only [edgeResolve, zero_mul, Int.floor_zero, if_neg hzcond,
      Int.cast_zero, sub_zero]
  refine ⟨by rw [hres], ?_, ?_, by rw [hres], ?_, ?_, by rw [hzres], by rw [hzres]⟩
  · rw [hres]; exact hfn
  · rw [hres]; exact hfl
  · rw [hres]
    have := Int.floor_le (phase * (L : ℚ))
    dsimp only
    linarith
  · rw [hres]
    have := Int.lt_floor_add_one (phase * (L : ℚ))
    dsimp only
    linarith

/-- Witness for C1 at `L = 12`, `phase = 1/3`. -/
theorem C1_edge_resolver_witness :
    ((1 : ℕ) ≤ 12 ∧ (0 : ℚ) ≤ 1 / 3 ∧ (1 / 3 : ℚ) < 1) ∧
    ((edgeResolve (1 / 3) 12).1 = ⌊(1 / 3 : ℚ) * ((12 : ℕ) : ℚ)⌋ ∧
     0 ≤ (edgeResolve (1 / 3) 12).1 ∧ (edgeResolve (1 / 3) 12).1 < ((12 : ℕ) : ℤ) ∧
     (edgeResolve (1 / 3) 12).2
       = (1 / 3 : ℚ) * ((12 : ℕ) : ℚ) - (⌊(1 / 3 : ℚ) * ((12 : ℕ) : ℚ)⌋ : ℚ) ∧
     0 ≤ (edgeResolve (1 / 3) 12).2 ∧ (edgeResolve (1 / 3) 12).2 < 1 ∧
     (edgeResolve 0 12).1 = 0 ∧ (edgeResolve 0 12).2 = 0) :=
  ⟨⟨by norm_num, by norm_num, by norm_num⟩,
   C1_edge_resolver 12 (1 / 3) (by norm_num) (by norm_num) (by norm_num)⟩

/- ===== C2 ===== -/

/-- C2: in both variants, under frequency ≥ 1 Hz and a larger sample rate,
`step` maps an instance whose phase is in `[0,1)` to an instance whose phase is
in `[0,1)`: the per-sample add-then-conditionally-subtract update preserves the
invariant across the whole frame loop. -/
theorem C2_phase_invariant (g : SharedGeom) (cv : ℕ → ℚ × ℚ × ℚ) (sinq : ℚ → ℚ)
    (pinst : PolyInstance) (cinst : CubeInstance) (bus1 bus2 : ℕ → ℚ)
    (n1 n2 : ℕ) (fs : ℚ)
    (hp0 : 0 ≤ pinst.phase) (hp1 : pinst.phase < 1)
    (hpf : 1 ≤ pinst.freq_Hz) (hpfs : pinst.freq_Hz < fs)
    (hc0 : 0 ≤ cinst.phase) (hc1 : cinst.phase < 1)
    (hcf : 1 ≤ cinst.freq_Hz) (hcfs : cinst.freq_Hz < fs) :
    (0 ≤ (polyStep g pinst bus1 n1 fs).1.phase ∧
      (polyStep g pinst bus1 n1 fs).1.phase < 1) ∧
    (0 ≤ (cubeStep cv sinq cinst bus2 n2 fs).1.phase ∧
      (cubeStep cv sinq cinst bus2 n2 fs).1.phase < 1) := by
  have hfs0 : 0 < fs := by linarith
  have hd0 : 0 ≤ pinst.freq_Hz / fs := div_nonneg (by linarith) (le_of_lt hfs0)
  have hd1 : pinst.freq_Hz / fs < 1 := (div_lt_one hfs0).2 hpfs
  have he0 : 0 ≤ cinst.freq_Hz / fs := div_nonneg (by linarith) (le_of_lt hfs0)
  have he1 : cinst.freq_Hz / fs < 1 := (div_lt_one hfs0).2 hcfs
  exact ⟨phaseIter_mem _ hd0 hd1 (n1 * 4) pinst.phase hp0 hp1,
         phaseIter_mem _ he0 he1 (n2 * 4) cinst.phase hc0 hc1⟩

/-- Witness for C2 at the constructor-default instances, one frame block of 4,
sample rate 48000 Hz. -/
theorem C2_phase_invariant_witness :
    ((0 : ℚ) ≤ polyInstanceInit.phase ∧ polyInstanceInit.phase < 1 ∧
     (1 : ℚ) ≤ polyInstanceInit.freq_Hz ∧ polyInstanceInit.freq_Hz < 48000 ∧
     (0 : ℚ) ≤ cubeInstanceInit.phase ∧ cubeInstanceInit.phase < 1 ∧
     (1 : ℚ) ≤ cubeInstanceInit.freq_Hz ∧ cubeInstanceInit.freq_Hz < 48000) ∧
    ((0 ≤ (polyStep zeroGeom polyInstanceInit zeroBus 1 48000).1.phase ∧
      (polyStep zeroGeom polyInstanceInit zeroBus 1 48000).1.phase < 1) ∧
     (0 ≤ (cubeStep zeroVerts idSin cubeInstanceInit zeroBus 1 48000).1.phase ∧
      (cubeStep zeroVerts idSin cubeInstanceInit zeroBus 1 48000).1.phase < 1)) :=
  ⟨⟨by norm_num [polyInstanceInit], by norm_num [polyInstanceInit],
    by norm_num [polyInstanceInit], by norm_num [polyInstanceInit],
    by norm_num [cubeInstanceInit], by norm_num [cubeInstanceInit],
    by norm_num [cubeInstanceInit], by norm_num [cubeInstanceInit]⟩,
   C2_phase_invariant zeroGeom zeroVerts idSin polyInstanceInit cubeInstanceInit
     zeroBus zeroBus 1 1 48000
     (by norm_num [polyInstanceInit]) (by norm_num [polyInstanceInit])
     (by norm_num [polyInstanceInit]) (by norm_num [polyInstanceInit])
     (by norm_num [cubeInstanceInit]) (by norm_num [cubeInstanceInit])
     (by norm_num [cubeInstanceInit]) (by norm_num [cubeInstanceInit])⟩

/- ===== C3 ===== -/

/-- C3 counterexample: with blank-phase 1000 µs, live frequency 250 Hz and the
octahedron traversal (L = 12) — all within the ranges the claim quantifies
over — the five-solid `step` computes `shiftFrac = 3`; at fraction 0 the single conditional subtract of the code yields `fShift = 2`, which differs from
`wrap01(0 + 3) = 0` and does not lie in `[0, 1)`. -/
theorem C3_fshift_counterexample :
    polyShiftFracOf { polyInstanceInit with blankPhase_us := 1000, freq_Hz := 250 } = 3 ∧
    fShiftOf 0 3 = 2 ∧ wrap01 (0 + 3) = 0 ∧
    fShiftOf 0 3 ≠ wrap01 (0 + 3) ∧ ¬ (fShiftOf 0 3 < 1) := by
  refine ⟨?_, ?_, ?_, ?_, ?_⟩ <;>
    norm_num [polyShiftFracOf, polyInstanceInit, shiftFracFormula, solidIdxOf,
      numEdgesArr, fShiftOf, wrap01]

/-- C3 amended: for every fraction in `[0,1)` and every `shiftFrac` in
`[-1, 1]` — which covers all values reachable in the cube variant, where
`|shiftFrac| ≤ 1000e-6 · 50 · 16 = 0.8`, but not the five-solid variant at
high frequency — the shifted fraction computed by `step` equals
`wrap01(fraction + shiftFrac)` and lies in `[0, 1)`. -/
theorem C3_fshift_amended (frac shiftFrac : ℚ) (h0 : 0 ≤ frac) (h1 : frac < 1)
    (hs0 : -1 ≤ shiftFrac) (hs1 : shiftFrac ≤ 1) :
    fShiftOf frac shiftFrac = wrap01 (frac + shiftFrac) ∧
    0 ≤ fShiftOf frac shiftFrac ∧ fShiftOf frac shiftFrac < 1 := by
  set x := frac + shiftFrac with hx
  have hxlo : -1 ≤ x := by linarith
  have hxhi : x < 2 := by linarith
  rcases lt_or_le x 0 with hneg | hpos
  · have hfl : ⌊x⌋ = -1 := by
      rw [Int.floor_eq_iff]
      refine ⟨by push_cast; linarith, by push_cast; linarith⟩
    have hv : fShiftOf frac shiftFrac = x + 1 := by
      simp only [fShiftOf, ← hx, if_pos hneg]
      rw [if_neg (not_le.2 (by linarith : x + 1 < 1))]
    rw [hv, wrap01, hfl]
    push_cast
    refine ⟨by ring, by linarith, by linarith⟩
  · rcases lt_or_le x 1 with hmid | hhi
    · have hfl : ⌊x⌋ = 0 := by
        rw [Int.floor_eq_iff]
        refine ⟨by push_cast; linarith, by push_cast; linarith⟩
      have hv : fShiftOf frac shiftFrac = x := by
        simp only [fShiftOf, ← hx, if_neg (not_lt.2 hpos)]
        rw [if_neg (not_le.2 hmid)]
      rw [hv, wrap01, hfl]
      push_cast
      refine ⟨by ring, by linarith, by linarith⟩
    · have hfl : ⌊x⌋ = 1 := by
        rw [Int.floor_eq_iff]
        refine ⟨by push_cast; linarith, by push_cast; linarith⟩
      have hv : fShiftOf frac shiftFrac = x - 1 := by
        simp only [fShiftOf, ← hx, if_neg (not_lt.2 hpos)]
        rw [if_pos (hhi : x ≥ 1)]
      rw [hv, wrap01, hfl]
      push_cast
      refine ⟨by ring, by linarith, by linarith⟩

/-- Witness for the amended C3 at `frac = 1/2`, `shiftFrac = 3/4`. -/
theorem C3_fshift_amended_witness :
    ((0 : ℚ) ≤ 1 / 2 ∧ (1 / 2 : ℚ) < 1 ∧ (-1 : ℚ) ≤ 3 / 4 ∧ (3 / 4 : ℚ) ≤ 1) ∧
    (fShiftOf (1 / 2) (3 / 4) = wrap01 (1 / 2 + 3 / 4) ∧
     0 ≤ fShiftOf (1 / 2) (3 / 4) ∧ fShiftOf (1 / 2) (3 / 4) < 1) :=
  ⟨⟨by norm_num, by norm_num, by norm_num, by norm_num⟩,
   C3_fshift_amended (1 / 2) (3 / 4) (by norm_num) (by norm_num)
     (by norm_num) (by norm_num)⟩

/- ===== C4 ===== -/

/-- C4: the two variants differ in the blanking reference exactly as specified:
the cube `step` computes `blankFrac` and `shiftFrac` from the fixed constant
50 Hz — both are unchanged under any change of the live frequency parameter —
with `blankFrac = min(0.5, bw·1e-6·50·16)`, while the five-solid `step`
computes them from the live frequency, with
`blankFrac = min(0.5, bw·1e-6·freq·L)` for its selected traversal length `L`. -/
theorem C4_blank_reference_policy (cinst : CubeInstance) (pinst : PolyInstance)
    (f : ℚ) :
    cubeBlankFracOf { cinst with freq_Hz := f } = cubeBlankFracOf cinst ∧
    cubeShiftFracOf { cinst with freq_Hz := f } = cubeShiftFracOf cinst ∧
    cubeBlankFracOf cinst
      = min (1 / 2) (cinst.blankWindow_us * (1 / 1000000) * 50 * 16) ∧
    cubeShiftFracOf cinst = cinst.blankPhase_us * (1 / 1000000) * 50 * 16 ∧
    polyBlankFracOf pinst
      = min (1 / 2) (pinst.blankWindow_us * (1 / 1000000) * pinst.freq_Hz *
          (numEdgesArr (solidIdxOf pinst.solidParam).toNat : ℚ)) ∧
    polyShiftFracOf pinst = pinst.blankPhase_us * (1 / 1000000) * pinst.freq_Hz *
        (numEdgesArr (solidIdxOf pinst.solidParam).toNat : ℚ) := by
  have hmin : ∀ bw ref L : ℚ, blankFracFormula bw ref L
      = min (1 / 2) (bw * (1 / 1000000) * ref * L) := by
    intro bw ref L
    simp only [blankFracFormula]
    rcases le_or_lt (bw * (1 / 1000000) * ref * L) (1 / 2) with h | h
    · rw [if_neg (not_lt.2 h), min_eq_right h]
    · rw [if_pos h, min_eq_left (le_of_lt h)]
  refine ⟨rfl, rfl, ?_, ?_, ?_, rfl⟩
  · rw [cubeBlankFracOf, hmin]
    norm_num [numSegments, cubeSegments]
  · rw [cubeShiftFracOf, shiftFracFormula]
    norm_num [numSegments, cubeSegments]
  · rw [polyBlankFracOf, hmin]

/- ===== C5 ===== -/

/-- C5: in both variants (which share `blankFracFormula`, the cube at reference
50 Hz and L = 16, the five-solid at the live frequency), for fixed positive
reference frequency and traversal length the blank fraction is monotone in the
blank-window parameter, widens the blanked phase interval monotonically, is
strictly increasing below the saturation cap, becomes strictly positive as the
window leaves 0, and never exceeds 1/2 for any input magnitude. -/
theorem C5_blank_monotone (bw bw' ref L : ℚ) (href : 0 < ref) (hL : 0 < L)
    (hbw : 0 ≤ bw) (hle : bw ≤ bw') :
    blankFracFormula bw ref L ≤ blankFracFormula bw' ref L ∧
    (∀ w : ℚ, blankFracFormula w ref L ≤ 1 / 2) ∧
    (∀ f : ℚ, (f < blankFracFormula bw ref L ∨ f > 1 - blankFracFormula bw ref L) →
      (f < blankFracFormula bw' ref L ∨ f > 1 - blankFracFormula bw' ref L)) ∧
    (bw < bw' → blankFracFormula bw' ref L < 1 / 2 →
      blankFracFormula bw ref L < blankFracFormula bw' ref L) ∧
    (0 < bw' → 0 < blankFracFormula bw' ref L) := by
  have hc : 0 < (1 / 1000000 : ℚ) * ref * L := by positivity
  have hraw : ∀ w : ℚ, w * (1 / 1000000) * ref * L = w * ((1 / 1000000) * ref * L) := by
    intro w; ring
  have hmin : ∀ w : ℚ, blankFracFormula w ref L
      = min (1 / 2) (w * ((1 / 1000000) * ref * L)) := by
    intro w
    simp only [blankFracFormula, hraw w]
    rcases le_or_lt (w * ((1 / 1000000) * ref * L)) (1 / 2) with h | h
    · rw [if_neg (not_lt.2 h), min_eq_right h]
    · rw [if_pos h, min_eq_left (le_of_lt h)]
  have hmono : blankFracFormula bw ref L ≤ blankFracFormula bw' ref L := by
    rw [hmin, hmin]
    exact min_le_min le_rfl (mul_le_mul_of_nonneg_right hle (le_of_lt hc))
  refine ⟨hmono, ?_, ?_, ?_, ?_⟩
  · intro w
    rw [hmin]
    exact min_le_left _ _
  · intro f hf
    rcases hf with hf | hf
    · exact Or.inl (lt_of_lt_of_le hf hmono)
    · exact Or.inr (by linarith)
  · intro hlt hsat
    rw [hmin] at hsat ⊢
    rw [hmin]
    have hb' : bw' * ((1 / 1000000) * ref * L) < 1 / 2 := by
      by_contra hcontra
      push_neg at hcontra
      rw [min_eq_left hcontra] at hsat
      linarith
    rw [min_eq_right (le_of_lt hb')] at hsat ⊢
    calc min (1 / 2) (bw * ((1 / 1000000) * ref * L))
        ≤ bw * ((1 / 1000000) * ref * L) := min_le_right _ _
      _ < bw' * ((1 / 1000000) * ref * L) := by
          exact mul_lt_mul_of_pos_right hlt hc
  · intro hpos
    rw [hmin]
    exact lt_min (by norm_num) (by positivity)

/-- Witness for C5 at `bw = 10`, `bw' = 20`, reference 50 Hz, `L = 16`. -/
theorem C5_blank_monotone_witness :
    ((0 : ℚ) < 50 ∧ (0 : ℚ) < 16 ∧ (0 : ℚ) ≤ 10 ∧ (10 : ℚ) ≤ 20) ∧
    (blankFracFormula 10 50 16 ≤ blankFracFormula 20 50 16 ∧
     (∀ w : ℚ, blankFracFormula w 50 16 ≤ 1 / 2) ∧
     (∀ f : ℚ, (f < blankFracFormula 10 50 16 ∨ f > 1 - blankFracFormula 10 50 16) →
       (f < blankFracFormula 20 50 16 ∨ f > 1 - blankFracFormula 20 50 16)) ∧
     ((10 : ℚ) < 20 → blankFracFormula 20 50 16 < 1 / 2 →
       blankFracFormula 10 50 16 < blankFracFormula 20 50 16) ∧
     ((0 : ℚ) < 20 → 0 < blankFracFormula 20 50 16)) :=
  ⟨⟨by norm_num, by norm_num, by norm_num, by norm_num⟩,
   C5_blank_monotone 10 20 50 16 (by norm_num) (by norm_num)
     (by norm_num) (by norm_num)⟩

/- ===== C6 ===== -/

/-- C6: the perspective projection of `step` never divides by zero: the
Distance case of `parameterChanged` always produces a camera distance of at
least 0.111, and for any such distance the guarded normal-polarity divisor is
nonzero for every rotated Z, while the inverted-polarity divisor — the camera
distance itself — is nonzero as well. -/
theorem C6_no_division_by_zero (raw : ℤ) (Zr d : ℚ) :
    111 / 1000 ≤ distanceFromRaw raw ∧
    (111 / 1000 ≤ d → perspDivisorNormal Zr d ≠ 0 ∧ d ≠ 0) := by
  constructor
  · simp only [distanceFromRaw]
    split
    · exact le_refl _
    · linarith [not_lt.1 (by assumption : ¬ ((raw : ℚ) * (1 / 100) < 111 / 1000))]
  · intro hd
    constructor
    · simp only [perspDivisorNormal]
      split
      · norm_num
      · assumption
    · intro h
      rw [h] at hd
      norm_num at hd

/-- Witness for C6 at raw distance parameter 100 (the five-solid default),
`Zr = -1`, `d = 1`. -/
theorem C6_no_division_by_zero_witness :
    (111 / 1000 ≤ distanceFromRaw 100) ∧
    ((111 / 1000 : ℚ) ≤ 1) ∧
    (perspDivisorNormal (-1) 1 ≠ 0 ∧ (1 : ℚ) ≠ 0) :=
  ⟨(C6_no_division_by_zero 100 (-1) 1).1, by norm_num,
   (C6_no_division_by_zero 100 (-1) 1).2 (by norm_num)⟩

/- ===== C7 ===== -/

theorem polyIntensity_cases (fS bF : ℚ) :
    polyIntensity fS bF = 0 ∨ polyIntensity fS bF = 5 := by
  unfold polyIntensity
  split
  · exact Or.inl rfl
  · exact Or.inr rfl

theorem cubeIntensity_cases (draw : ℕ) (fS bF : ℚ) :
    cubeIntensity draw fS bF = 0 ∨ cubeIntensity draw fS bF = 5 := by
  unfold cubeIntensity
  by_cases hd : draw ≠ 0
  · by_cases ht : fS < bF ∨ fS > 1 - bF
    · exact Or.inl (by simp [hd, ht])
    · exact Or.inr (by simp [hd, ht])
  · exact Or.inl (by simp [hd])

/-- C7: every intensity sample produced by either `step` loop body is exactly
0 or exactly 5; it is 5 whenever the blanking test does not fire (and, in the
cube variant, the draw flag of the segment is set), and in the cube variant it is 0
for every segment whose draw flag is 0, regardless of the blanking
parameters. -/
theorem C7_intensity_levels (g : SharedGeom) (cv : ℕ → ℚ × ℚ × ℚ)
    (sinq : ℚ → ℚ) (pinst : PolyInstance) (cinst : CubeInstance)
    (ph aph fS bF : ℚ) (draw : ℕ) :
    (polyIntensity fS bF = 0 ∨ polyIntensity fS bF = 5) ∧
    (¬ (fS < bF ∨ fS > 1 - bF) → polyIntensity fS bF = 5) ∧
    (cubeIntensity draw fS bF = 0 ∨ cubeIntensity draw fS bF = 5) ∧
    (draw = 0 → cubeIntensity draw fS bF = 0) ∧
    (draw ≠ 0 → ¬ (fS < bF ∨ fS > 1 - bF) → cubeIntensity draw fS bF = 5) ∧
    ((polySample g pinst ph).2.2 = 0 ∨ (polySample g pinst ph).2.2 = 5) ∧
    ((cubeSample cv sinq cinst ph aph).2.2 = 0 ∨
      (cubeSample cv sinq cinst ph aph).2.2 = 5) := by
  refine ⟨polyIntensity_cases fS bF, ?_, cubeIntensity_cases draw fS bF, ?_, ?_,
    polyIntensity_cases _ _, cubeIntensity_cases _ _ _⟩
  · intro h
    unfold polyIntensity
    rw [if_neg h]
  · intro h
    unfold cubeIntensity
    rw [if_neg (by simp [h])]
    simp [h]
  · intro hd h
    unfold cubeIntensity
    rw [if_neg (by simp [h])]
    simp [hd]

/-- Witness for C7 at `fS = 1/2`, `bF = 1/8`, draw flags 1 and 0. -/
theorem C7_intensity_levels_witness :
    (¬ ((1 / 2 : ℚ) < 1 / 8 ∨ (1 / 2 : ℚ) > 1 - 1 / 8)) ∧
    ((1 : ℕ) ≠ 0) ∧ ((0 : ℕ) = 0) ∧
    polyIntensity (1 / 2) (1 / 8) = 5 ∧
    cubeIntensity 0 (1 / 2) (1 / 8) = 0 ∧
    cubeIntensity 1 (1 / 2) (1 / 8) = 5 :=
  ⟨by norm_num, by norm_num, rfl,
   (C7_intensity_levels zeroGeom zeroVerts idSin polyInstanceInit cubeInstanceInit
      0 0 (1 / 2) (1 / 8) 1).2.1 (by norm_num),
   (C7_intensity_levels zeroGeom zeroVerts idSin polyInstanceInit cubeInstanceInit
      0 0 (1 / 2) (1 / 8) 0).2.2.2.1 rfl,
   (C7_intensity_levels zeroGeom zeroVerts idSin polyInstanceInit cubeInstanceInit
      0 0 (1 / 2) (1 / 8) 1).2.2.2.2.1 (by norm_num) (by norm_num)⟩

/- ===== C8 ===== -/

/-- A corrupted octahedron traversal order (edge 0 twice, edge 1 missing),
used to exhibit that `initialise` copies order tables without validation. -/
def badOctaOrder : List ℕ := [0, 0, 2, 3, 4, 5, 6, 7, 8, 9, 10, 11]

/-- C8: each of the five stored traversal orders is a permutation of
`0..L-1`, with counts and offsets matching the array lengths — but the
`initialise` routine performs no rejection: modelling its order-table copy
over an arbitrary first table, a non-permutation order is copied into the
shared arena unchanged and unchecked, so no rejection happens at
initialization time. -/
theorem C8_orders_permutation_no_rejection :
    (isPermOrder eulerOcta ∧ isPermOrder eulerCubo ∧ isPermOrder eulerRhdDodec ∧
     isPermOrder eulerRhdIcosa ∧ isPermOrder eulerTruncOcta) ∧
    (eulerOcta.length = eulerLengthAll 0 ∧ eulerCubo.length = eulerLengthAll 1 ∧
     eulerRhdDodec.length = eulerLengthAll 2 ∧
     eulerRhdIcosa.length = eulerLengthAll 3 ∧
     eulerTruncOcta.length = eulerLengthAll 4) ∧
    (eulerOffsetAll 1 = eulerOffsetAll 0 + eulerOcta.length ∧
     eulerOffsetAll 2 = eulerOffsetAll 1 + eulerCubo.length ∧
     eulerOffsetAll 3 = eulerOffsetAll 2 + eulerRhdDodec.length ∧
     eulerOffsetAll 4 = eulerOffsetAll 3 + eulerRhdIcosa.length) ∧
    ¬ isPermOrder badOctaOrder ∧
    initialiseEulerOrder badOctaOrder eulerCubo eulerRhdDodec eulerRhdIcosa
        eulerTruncOcta
      = badOctaOrder ++ eulerCubo ++ eulerRhdDodec ++ eulerRhdIcosa ++
        eulerTruncOcta := by
  refine ⟨⟨by decide, by decide, by decide, by decide, by decide⟩,
    ⟨by decide, by decide, by decide, by decide, by decide⟩,
    ⟨by decide, by decide, by decide, by decide⟩, by decide, rfl⟩

/- ===== C9 ===== -/

/-- C9: `getCourseFactor` reproduces the specified course-ratio table exactly
on `[0, 34]`: index 0 ↦ 1/4, 1 ↦ 1/3, 2 ↦ 1/2, 3 ↦ 1, and every index ≥ 4 ↦
the integer `index - 2`. -/
theorem C9_course_factor (idx : ℤ) (h0 : 0 ≤ idx) (h34 : idx ≤ 34) :
    (idx = 0 → getCourseFactor idx = 1 / 4) ∧
    (idx = 1 → getCourseFactor idx = 1 / 3) ∧
    (idx = 2 → getCourseFactor idx = 1 / 2) ∧
    (idx = 3 → getCourseFactor idx = 1) ∧
    (4 ≤ idx → getCourseFactor idx = ((idx - 2 : ℤ) : ℚ)) := by
  refine ⟨?_, ?_, ?_, ?_, ?_⟩ <;> intro h
  · rw [h]; norm_num [getCourseFactor]
  · rw [h]; norm_num [getCourseFactor]
  · rw [h]; norm_num [getCourseFactor]
  · rw [h]; norm_num [getCourseFactor]
  · unfold getCourseFactor
    rw [if_neg (by omega), if_neg (by omega), if_neg (by omega), if_neg (by omega)]

/-- Witness for C9 at index 6 (ratio ×4). -/
theorem C9_course_factor_witness :
    ((0 : ℤ) ≤ 6 ∧ (6 : ℤ) ≤ 34 ∧ (4 : ℤ) ≤ 6) ∧
    getCourseFactor 6 = ((6 - 2 : ℤ) : ℚ) :=
  ⟨⟨by norm_num, by norm_num, by norm_num⟩,
   (C9_course_factor 6 (by norm_num) (by norm_num)).2.2.2.2 (by norm_num)⟩

/- ===== C10 ===== -/

theorem div_ne_of_not_inRegion (b nF j : ℕ) (h : 0 < nF)
    (hnot : ¬ inBusRegion b nF j) : j / nF ≠ b := by
  intro he
  apply hnot
  subst he
  have h1 := Nat.div_add_mod j nF
  have h2 := Nat.mod_lt j h
  have h3 : (j / nF) * nF = nF * (j / nF) := Nat.mul_comm _ _
  unfold inBusRegion
  omega

theorem polyStep_bus_untouched (g : SharedGeom) (inst : PolyInstance)
    (bus : ℕ → ℚ) (nBy4 : ℕ) (fs : ℚ) (j : ℕ)
    (hx : ¬ inBusRegion inst.xOutBus (nBy4 * 4) j)
    (hy : ¬ inBusRegion inst.yOutBus (nBy4 * 4) j)
    (hi : ¬ inBusRegion inst.iOutBus (nBy4 * 4) j) :
    (polyStep g inst bus nBy4 fs).2 j = bus j := by
  rcases Nat.eq_zero_or_pos (nBy4 * 4) with h0 | hpos
  · simp only [polyStep]
    rw [if_pos h0]
  · have hxne := div_ne_of_not_inRegion _ _ _ hpos hx
    have hyne := div_ne_of_not_inRegion _ _ _ hpos hy
    have hine := div_ne_of_not_inRegion _ _ _ hpos hi
    simp only [polyStep]
    rw [if_neg (Nat.pos_iff_ne_zero.1 hpos), if_neg hine, if_neg hyne, if_neg hxne]

theorem cubeStep_bus_untouched (cv : ℕ → ℚ × ℚ × ℚ) (sinq : ℚ → ℚ)
    (inst : CubeInstance) (bus : ℕ → ℚ) (nBy4 : ℕ) (fs : ℚ) (j : ℕ)
    (hx : ¬ inBusRegion inst.xOutBus (nBy4 * 4) j)
    (hy : ¬ inBusRegion inst.yOutBus (nBy4 * 4) j)
    (hi : ¬ inBusRegion inst.iOutBus (nBy4 * 4) j) :
    (cubeStep cv sinq inst bus nBy4 fs).2 j = bus j := by
  rcases Nat.eq_zero_or_pos (nBy4 * 4) with h0 | hpos
  · simp only [cubeStep]
    rw [if_pos h0]
  · have hxne := div_ne_of_not_inRegion _ _ _ hpos hx
    have hyne := div_ne_of_not_inRegion _ _ _ hpos hy
    have hine := div_ne_of_not_inRegion _ _ _ hpos hi
    simp only [cubeStep]
    rw [if_neg (Nat.pos_iff_ne_zero.1 hpos), if_neg hine, if_neg hyne, if_neg hxne]

/-- C10: each `step` writes only the three contiguous bus regions selected by
`xOutBus`, `yOutBus` and `iOutBus` (`numFrames` entries each), leaving every
other element of `busFrames` unchanged; the resulting instance differs from
the input instance in the `phase` field only (five-solid variant), resp. in
`phase` and `ampPhase` only (cube variant) — all cached sines/cosines,
frequency, camera, projection, polarity, routing, blanking and
amplitude-modulation parameter fields are preserved. -/
theorem C10_frame_effect (g : SharedGeom) (cv : ℕ → ℚ × ℚ × ℚ) (sinq : ℚ → ℚ)
    (pinst : PolyInstance) (cinst : CubeInstance) (bus1 bus2 : ℕ → ℚ)
    (n1 n2 : ℕ) (fs : ℚ) (j k : ℕ)
    (hjx : ¬ inBusRegion pinst.xOutBus (n1 * 4) j)
    (hjy : ¬ inBusRegion pinst.yOutBus (n1 * 4) j)
    (hji : ¬ inBusRegion pinst.iOutBus (n1 * 4) j)
    (hkx : ¬ inBusRegion cinst.xOutBus (n2 * 4) k)
    (hky : ¬ inBusRegion cinst.yOutBus (n2 * 4) k)
    (hki : ¬ inBusRegion cinst.iOutBus (n2 * 4) k) :
    (polyStep g pinst bus1 n1 fs).2 j = bus1 j ∧
    (polyStep g pinst bus1 n1 fs).1
      = { pinst with phase := (polyStep g pinst bus1 n1 fs).1.phase } ∧
    (cubeStep cv sinq cinst bus2 n2 fs).2 k = bus2 k ∧
    (cubeStep cv sinq cinst bus2 n2 fs).1
      = { cinst with
            phase := (cubeStep cv sinq cinst bus2 n2 fs).1.phase
            ampPhase := (cubeStep cv sinq cinst bus2 n2 fs).1.ampPhase } :=
  ⟨polyStep_bus_untouched g pinst bus1 n1 fs j hjx hjy hji, rfl,
   cubeStep_bus_untouched cv sinq cinst bus2 n2 fs k hkx hky hki, rfl⟩

/-- Witness for C10 at the default instances (buses 12, 13, 14), one block of
4 frames, index 0 — which lies outside all three bus regions `[48,52)`,
`[52,56)`, `[56,60)`. -/
theorem C10_frame_effect_witness :
    (¬ inBusRegion polyInstanceInit.xOutBus (1 * 4) 0 ∧
     ¬ inBusRegion polyInstanceInit.yOutBus (1 * 4) 0 ∧
     ¬ inBusRegion polyInstanceInit.iOutBus (1 * 4) 0 ∧
     ¬ inBusRegion cubeInstanceInit.xOutBus (1 * 4) 0 ∧
     ¬ inBusRegion cubeInstanceInit.yOutBus (1 * 4) 0 ∧
     ¬ inBusRegion cubeInstanceInit.iOutBus (1 * 4) 0) ∧
    ((polyStep zeroGeom polyInstanceInit zeroBus 1 48000).2 0 = zeroBus 0 ∧
     (polyStep zeroGeom polyInstanceInit zeroBus 1 48000).1
       = { polyInstanceInit with
             phase := (polyStep zeroGeom polyInstanceInit zeroBus 1 48000).1.phase } ∧
     (cubeStep zeroVerts idSin cubeInstanceInit zeroBus 1 48000).2 0 = zeroBus 0 ∧
     (cubeStep zeroVerts idSin cubeInstanceInit zeroBus 1 48000).1
       = { cubeInstanceInit with
             phase := (cubeStep zeroVerts idSin cubeInstanceInit zeroBus 1 48000).1.phase
             ampPhase :=
               (cubeStep zeroVerts idSin cubeInstanceInit zeroBus 1 48000).1.ampPhase }) :=
  ⟨⟨by decide, by decide, by decide, by decide, by decide, by decide⟩,
   C10_frame_effect zeroGeom zeroVerts idSin polyInstanceInit cubeInstanceInit
     zeroBus zeroBus 1 1 48000 0 0
     (by decide) (by decide) (by decide) (by decide) (by decide) (by decide)⟩

end PolyWire
